import Mathlib

/-!
Verification of the agent signal-protocol layer of marge-and-ralph.

The embedding models `src/agents/signals.ts` (the stateful `SignalParser`),
`src/agents/spawn.ts` (the line-buffering stream reader `readStream`), and
`src/agents/monitor.ts` (`monitorAgent` dispatch) over `List Char` strings.

The three regular expressions of signals.ts,

  SIGNAL_OPEN  = <!--\s*SIGNAL:(\w+)((?:\s+\w+="[^"]*")*)\s*-->
  SIGNAL_CLOSE = <!--\s*\/SIGNAL\s*-->
  ATTR_RE      = (\w+)="([^"]*)"   (global)

are embedded as deterministic scanners.  Each of these patterns is
backtracking-free under JavaScript regex semantics: every quantifier in them
(`\s*`, `\s+`, `\w+`, `[^"]*`, and the attribute-group star) is followed by a
character class disjoint from the one quantified, so the greedy maximal munch
is the only viable choice, and `exec` simply returns the match at the first
start index where the maximal-munch scan succeeds.
-/

set_option maxRecDepth 4000

namespace MargeRalph

/-- Strings are modelled as lists of characters. -/
abbrev Str := List Char

/-- JavaScript whitespace: the character set matched by `\s`, and the set
stripped by `String.prototype.trim` (WhiteSpace plus LineTerminator). -/
def isJsWs (c : Char) : Bool :=
  c == ' ' || c == '\t' || c == '\n' || c == '\r' ||
  c.val == 0x0b || c.val == 0x0c || c.val == 0xa0 || c.val == 0x1680 ||
  (0x2000 ≤ c.val && c.val ≤ 0x200a) || c.val == 0x2028 || c.val == 0x2029 ||
  c.val == 0x202f || c.val == 0x205f || c.val == 0x3000 || c.val == 0xfeff

/-- JavaScript word character: the class `\w`, i.e. `[A-Za-z0-9_]`. -/
def isWordChar (c : Char) : Bool :=
  ('a' ≤ c && c ≤ 'z') || ('A' ≤ c && c ≤ 'Z') || ('0' ≤ c && c ≤ '9') || c == '_'

/-- `String.prototype.trim`: strip JS whitespace from both ends. -/
def trim (s : Str) : Str :=
  ((s.dropWhile isJsWs).reverse.dropWhile isJsWs).reverse

/-- `Array.prototype.join` with separator `"\n"`. -/
def joinNl : List Str → Str
  | [] => []
  | [l] => l
  | l :: ls => l ++ '\n' :: joinNl ls

/-- Does `s` start with `pat`?  (`List.isPrefixOf`, restated so that it
reduces as soon as the pattern is exhausted.) -/
def startsWith : Str → Str → Bool
  | [] => fun _ => true
  | p :: ps => fun s =>
    match s with
    | [] => false
    | c :: cs => p == c && startsWith ps cs

/-- `String.prototype.indexOf` for a literal pattern: index of the first
occurrence, or `none` (JS returns -1). -/
def indexOfLit (pat : Str) : Str → Option Nat
  | [] => if startsWith pat [] then some 0 else none
  | c :: t =>
    if startsWith pat (c :: t) then some 0
    else (indexOfLit pat t).map (· + 1)

/-- `String.prototype.includes` for a literal pattern. -/
def containsSeq (pat s : Str) : Bool :=
  (indexOfLit pat s).isSome

/-- The legacy ralph completion literal `<promise>COMPLETE</promise>`. -/
def legacyLit : Str := "<promise>COMPLETE</promise>".data

/-- The exact close-marker literal used by `indexOf` in the self-closing
branch of `SignalParser.feed`. -/
def closeLit : Str := "<!-- /SIGNAL -->".data

/-- Does `SIGNAL_CLOSE` match at the very start of `s`?  The pattern is
`<!--`, then `\s*` (maximal), then `/SIGNAL`, then `\s*` (maximal),
then `-->`. -/
def closeAt (s : Str) : Bool :=
  if startsWith "<!--".data s then
    let r1 := (s.drop 4).dropWhile isJsWs
    if startsWith "/SIGNAL".data r1 then
      let r2 := (r1.drop 7).dropWhile isJsWs
      startsWith "-->".data r2
    else false
  else false

/-- `SIGNAL_CLOSE.test(line)`: does the close pattern match anywhere? -/
def signalCloseTest : Str → Bool
  | [] => false
  | c :: t => closeAt (c :: t) || signalCloseTest t

/-- One iteration of `SIGNAL_OPEN`'s attribute group `(?:\s+\w+="[^"]*")`
at the head of `s`: returns the consumed text and the rest. -/
def matchAttrIter (s : Str) : Option (Str × Str) :=
  let ws := s.takeWhile isJsWs
  let r1 := s.dropWhile isJsWs
  if ws.isEmpty then none
  else
    let w := r1.takeWhile isWordChar
    let r2 := r1.dropWhile isWordChar
    if w.isEmpty then none
    else
      match r2 with
      | '=' :: '"' :: r3 =>
        let v := r3.takeWhile (fun c => !(c == '"'))
        let r4 := r3.dropWhile (fun c => !(c == '"'))
        (match r4 with
         | '"' :: r5 => some (ws ++ w ++ '=' :: '"' :: (v ++ ['"']), r5)
         | _ => none)
      | _ => none

/-- Greedy repetition of the attribute iteration.  Every successful
iteration consumes at least four characters, so `s.length` fuel is always
sufficient and the fueled function agrees with the unbounded loop. -/
def matchAttrListAux : Nat → Str → Str × Str
  | 0, s => ([], s)
  | Nat.succ fuel, s =>
    match matchAttrIter s with
    | some (c, r) =>
      let p := matchAttrListAux fuel r
      (c ++ p.1, p.2)
    | none => ([], s)

/-- The full capture of `SIGNAL_OPEN`'s group 2, plus the rest of the
input after it. -/
def matchAttrList (s : Str) : Str × Str :=
  matchAttrListAux s.length s

/-- Does `SIGNAL_OPEN` match at the very start of `s`?  Returns the type
capture (group 1), the raw attribute capture (group 2), and the rest of the
input after the full match (i.e. after `-->`). -/
def matchOpenAt (s : Str) : Option (Str × Str × Str) :=
  if startsWith "<!--".data s then
    let r1 := (s.drop 4).dropWhile isJsWs
    if startsWith "SIGNAL:".data r1 then
      let r2 := r1.drop 7
      let ty := r2.takeWhile isWordChar
      let r3 := r2.dropWhile isWordChar
      if ty.isEmpty then none
      else
        let p := matchAttrList r3
        let r4 := p.2.dropWhile isJsWs
        if startsWith "-->".data r4 then some (ty, p.1, r4.drop 3) else none
    else none
  else none

/-- `SIGNAL_OPEN.exec(line)`: the match at the first start index where the
pattern matches, or `none`. -/
def signalOpenExec : Str → Option (Str × Str × Str)
  | [] => none
  | c :: t =>
    match matchOpenAt (c :: t) with
    | some r => some r
    | none => signalOpenExec t

/-- One `ATTR_RE` match `(\w+)="([^"]*)"` at the head of `s`:
returns the key capture, the value capture, and the rest. -/
def matchAttrHere (s : Str) : Option ((Str × Str) × Str) :=
  let k := s.takeWhile isWordChar
  let r1 := s.dropWhile isWordChar
  if k.isEmpty then none
  else
    match r1 with
    | '=' :: '"' :: r2 =>
      let v := r2.takeWhile (fun c => !(c == '"'))
      let r3 := r2.dropWhile (fun c => !(c == '"'))
      (match r3 with
       | '"' :: r4 => some ((k, v), r4)
       | _ => none)
    | _ => none

/-- The global `ATTR_RE.exec` loop: successive leftmost matches, each search
resuming after the previous match.  Every step consumes at least one
character, so `s.length` fuel is always sufficient. -/
def parseAttrsAux : Nat → Str → List (Str × Str)
  | 0, _ => []
  | Nat.succ fuel, s =>
    match s with
    | [] => []
    | c :: t =>
      match matchAttrHere (c :: t) with
      | some (kv, rest) => kv :: parseAttrsAux fuel rest
      | none => parseAttrsAux fuel t

/-- The ordered key/value pairs `ATTR_RE` finds in `raw`. -/
def parseAttrsList (s : Str) : List (Str × Str) :=
  parseAttrsAux s.length s

/-- JavaScript object assignment `attrs[k] = v`: an existing key keeps its
position and gets the new value, a new key is appended. -/
def objSet (m : List (Str × Str)) (kv : Str × Str) : List (Str × Str) :=
  if m.any (fun p => p.1 == kv.1) then
    m.map (fun p => if p.1 == kv.1 then kv else p)
  else m ++ [kv]

/-- `parseAttrs` of signals.ts: fold the `ATTR_RE` matches into an object,
last occurrence winning on duplicate keys. -/
def parseAttrs (raw : Str) : List (Str × Str) :=
  (parseAttrsList raw).foldl objSet []

/-- A parsed Signal.  At runtime the `type` is whatever `\w+` word the open
marker carried (the TypeScript cast performs no validation), so it is
modelled as a plain string. -/
structure Signal where
  type : Str
  attrs : List (Str × Str)
  body : Str
deriving DecidableEq

/-- The mutable state of a `SignalParser` instance. -/
structure ParserState where
  pending : Option (Str × List (Str × Str))
  bodyLines : List Str
deriving DecidableEq

/-- A freshly constructed `SignalParser`: `pending = null`, `bodyLines = []`. -/
def initState : ParserState :=
  { pending := none, bodyLines := [] }

/-- The open-marker check, self-closing emission, pending start, and body
accumulation part of `feed` (everything after the legacy and close checks). -/
def feedOpenOrBody (st : ParserState) (line : Str) : Option Signal × ParserState :=
  match signalOpenExec line with
  | some (ty, raw, afterOpen) =>
    if signalCloseTest line then
      let body :=
        match indexOfLit closeLit afterOpen with
        | some i => trim (afterOpen.take i)
        | none => []
      (some { type := ty, attrs := parseAttrs raw, body := body }, st)
    else
      (none, { pending := some (ty, parseAttrs raw), bodyLines := [] })
  | none =>
    match st.pending with
    | some _ => (none, { st with bodyLines := st.bodyLines ++ [line] })
    | none => (none, st)

/-- `SignalParser.feed`, as a pure state transformer. -/
def feed (st : ParserState) (line : Str) : Option Signal × ParserState :=
  if containsSeq legacyLit line then
    (some { type := "COMPLETE".data, attrs := [], body := [] }, st)
  else
    match st.pending with
    | some pend =>
      if signalCloseTest line then
        (some { type := pend.1, attrs := pend.2, body := trim (joinNl st.bodyLines) },
         initState)
      else feedOpenOrBody st line
    | none => feedOpenOrBody st line

/-- `SignalParser.reset`. -/
def reset (_st : ParserState) : ParserState :=
  initState

/-- Feed a list of lines in order, collecting each call's result. -/
def feedAll (st : ParserState) : List Str → List (Option Signal) × ParserState
  | [] => ([], st)
  | l :: ls =>
    let r := feed st l
    let rest := feedAll r.2 ls
    (r.1 :: rest.1, rest.2)

/-! ## The stream reader of spawn.ts

`readStream` accumulates decoded text in `buffer`, splits on `"\n"`, keeps
the final piece (`lines.pop()`) as the new buffer, and processes the
completed lines.  Chunks are modelled as decoded text: `TextDecoder` with
`stream: true` carries split multi-byte sequences across reads, so byte
chunk boundaries are invisible at the text level. -/

/-- The run-local state mutated while reading streams: the aggregated
stdout lines, the detected signals in order, the parser, and the text
written to the parent's stderr. -/
structure RunState where
  outputLines : List Str
  signals : List Signal
  parser : ParserState
  stderrOut : List Str
deriving DecidableEq

/-- State at the start of a run (fresh parser, empty buffers). -/
def initRun : RunState :=
  { outputLines := [], signals := [], parser := initState, stderrOut := [] }

/-- Process one completed line, as the body of the `for` loop in
`readStream`: a stdout line is appended to `outputLines` and fed to the
parser (any completed signal is appended to `signals`); a stderr line is
written, with a newline, to the parent's stderr. -/
def processLine (onStdout : Bool) (rs : RunState) (line : Str) : RunState :=
  if onStdout then
    let r := feed rs.parser line
    { rs with
      outputLines := rs.outputLines ++ [line]
      parser := r.2
      signals := rs.signals ++ r.1.toList }
  else
    { rs with stderrOut := rs.stderrOut ++ [line ++ ['\n']] }

/-- `buffer.split("\n")` followed by `buffer = lines.pop()`: the completed
lines together with the new (newline-free) buffer. -/
def splitState : Str → List Str × Str
  | [] => ([], [])
  | c :: t =>
    let p := splitState t
    if c = '\n' then ([] :: p.1, p.2)
    else
      match p.1 with
      | [] => ([], c :: p.2)
      | h :: r => ((c :: h) :: r, p.2)

/-- The read loop of `readStream`: per chunk, split the buffer plus chunk,
process the completed lines, keep the remainder; at end of stream the
remaining buffer is processed only when nonempty and on stdout. -/
def readStreamLoop (onStdout : Bool) : Str → List Str → RunState → RunState
  | buf, [], rs =>
    if !buf.isEmpty && onStdout then processLine onStdout rs buf else rs
  | buf, chunk :: rest, rs =>
    let p := splitState (buf ++ chunk)
    readStreamLoop onStdout p.2 rest (p.1.foldl (processLine onStdout) rs)

/-- `readStream` of spawn.ts applied to a chunked stream. -/
def readStream (onStdout : Bool) (chunks : List Str) (rs : RunState) : RunState :=
  readStreamLoop onStdout [] chunks rs

/-! ## The monitor façade of monitor.ts

`monitorAgent` composes two callbacks onto `spawnAgent`.  Handlers are
opaque caller functions, so dispatch is modelled as the trace of
invocations it performs. -/

/-- An observable action of the monitor's callbacks. -/
inductive MEvent where
  | anyHandler (s : Signal)
  | typedHandler (s : Signal)
  | echo (out : Str)
deriving DecidableEq

/-- The `onSignal` callback built by `monitorAgent`: invoke the catch-all
handler when one was supplied, then look up and invoke the type-specific
handler.  `handlerTypes` lists the keys present in the `handlers` map. -/
def monitorOnSignal (hasCatchAll : Bool) (handlerTypes : List Str) (s : Signal) :
    List MEvent :=
  (if hasCatchAll then [MEvent.anyHandler s] else []) ++
  (if handlerTypes.contains s.type then [MEvent.typedHandler s] else [])

/-- The `onOutput` callback built by `monitorAgent`: with `passthrough`
omitted (`none`) or `true`, every raw line is echoed to the parent's stdout
as `line + "\n"`; with `passthrough: false` no callback is installed. -/
def monitorOnOutput (passthrough : Option Bool) (line : Str) : List MEvent :=
  match passthrough with
  | some false => []
  | _ => [MEvent.echo (line ++ ['\n'])]

/-! ## Call sequences against one parser instance -/

/-- A call to the public interface of one `SignalParser` instance. -/
inductive POp where
  | feedOp (line : Str)
  | resetOp
deriving DecidableEq

/-- Apply one call to the parser state. -/
def applyOp (st : ParserState) : POp → ParserState
  | POp.feedOp l => (feed st l).2
  | POp.resetOp => reset st

/-- The parser state after a sequence of calls on a fresh instance. -/
def applyOps (ops : List POp) : ParserState :=
  ops.foldl applyOp initState

/-! ## Claims about the legacy completion literal -/

/-- Claim C2: on every parser state, a line containing the literal
`<promise>COMPLETE</promise>` makes `feed` return a COMPLETE signal with
empty attributes and empty body at once, leaving the state untouched —
before any close-marker, open-marker, or body-accumulation handling. -/
theorem feed_legacy_priority (st : ParserState) (line : Str)
    (h : containsSeq legacyLit line = true) :
    feed st line = (some ⟨"COMPLETE".data, [], []⟩, st) := by
  simp [feed, h]

theorem feed_legacy_priority_wit :
    feed initState "abc <promise>COMPLETE</promise> xyz".data
      = (some ⟨"COMPLETE".data, [], []⟩, initState) :=
  feed_legacy_priority initState "abc <promise>COMPLETE</promise> xyz".data (by decide)

/-- Claim C5: with a block pending, a line containing the legacy literal
emits the COMPLETE signal while leaving the pending block's type and
attributes and the accumulated body lines exactly as they were: the block is
neither closed nor discarded and the line is not appended to the body. -/
theorem feed_legacy_pending_frame (ty : Str) (ats : List (Str × Str))
    (bls : List Str) (line : Str)
    (h : containsSeq legacyLit line = true) :
    feed ⟨some (ty, ats), bls⟩ line
      = (some ⟨"COMPLETE".data, [], []⟩, ⟨some (ty, ats), bls⟩) := by
  simp [feed, h]

theorem feed_legacy_pending_frame_wit :
    feed ⟨some ("CHECKPOINT".data, [("type".data, "decision".data)]), ["partial".data]⟩
        "<promise>COMPLETE</promise>".data
      = (some ⟨"COMPLETE".data, [], []⟩,
         ⟨some ("CHECKPOINT".data, [("type".data, "decision".data)]), ["partial".data]⟩) :=
  feed_legacy_pending_frame "CHECKPOINT".data [("type".data, "decision".data)]
    ["partial".data] "<promise>COMPLETE</promise>".data (by decide)

/-! ## Claim about reset -/

/-- Claim C6: `reset()` unconditionally discards any in-progress state, and
after feeding any prefix of a block and resetting, re-feeding lines from the
start produces the same sequence of results (and final state) as feeding
them to a fresh parser. -/
theorem reset_refeed_idempotent (st : ParserState) (pre lines : List Str) :
    reset (feedAll st pre).2 = initState ∧
    feedAll (reset (feedAll st pre).2) lines = feedAll initState lines :=
  ⟨rfl, rfl⟩

/-! ## Claim about the monitor façade -/

/-- Claim C9: when a catch-all handler is supplied, `monitorAgent` invokes
it on every signal before the type-specific handler registered for that
signal's type, and when the `passthrough` option is omitted every raw
output line is echoed to the parent's stdout (the default is on). -/
theorem monitor_dispatch_contract (handlerTypes : List Str) (s : Signal) (line : Str) :
    monitorOnSignal true handlerTypes s =
      MEvent.anyHandler s ::
        (if handlerTypes.contains s.type then [MEvent.typedHandler s] else []) ∧
    monitorOnOutput none line = [MEvent.echo (line ++ ['\n'])] :=
  ⟨rfl, rfl⟩

/-! ## Claim C10: the parser state invariant -/

lemma stInv_feed (st : ParserState) (line : Str)
    (h : st.pending = none → st.bodyLines = []) :
    (feed st line).2.pending = none → (feed st line).2.bodyLines = [] := by
  cases hleg : containsSeq legacyLit line with
  | true => simpa [feed, hleg] using h
  | false =>
    cases hpend : st.pending with
    | some p =>
      cases hcl : signalCloseTest line with
      | true => simp [feed, hleg, hpend, hcl, initState]
      | false =>
        cases hopen : signalOpenExec line with
        | some r =>
          obtain ⟨ty, raw, rest⟩ := r
          simp [feed, feedOpenOrBody, hleg, hpend, hcl, hopen]
        | none =>
          simp [feed, feedOpenOrBody, hleg, hpend, hcl, hopen]
    | none =>
      cases hopen : signalOpenExec line with
      | some r =>
        obtain ⟨ty, raw, rest⟩ := r
        cases hcl : signalCloseTest line with
        | true => simp [feed, feedOpenOrBody, hleg, hpend, hopen, hcl, h hpend]
        | false => simp [feed, feedOpenOrBody, hleg, hpend, hopen, hcl]
      | none => simp [feed, feedOpenOrBody, hleg, hpend, hopen, h hpend]

lemma stInv_applyOp (st : ParserState) (op : POp)
    (h : st.pending = none → st.bodyLines = []) :
    (applyOp st op).pending = none → (applyOp st op).bodyLines = [] := by
  cases op with
  | feedOp l => exact stInv_feed st l h
  | resetOp => intro _; rfl

/-- Claim C10: after every sequence of `feed` and `reset` calls on a fresh
`SignalParser`, whenever `pending` is `null` the accumulated `bodyLines`
list is empty — body lines accumulate only while a block is pending. -/
lemma stInv_foldl (ops : List POp) :
    ∀ st, (st.pending = none → st.bodyLines = []) →
      ((ops.foldl applyOp st).pending = none → (ops.foldl applyOp st).bodyLines = []) := by
  induction ops with
  | nil => exact fun st hst => hst
  | cons op rest ih => exact fun st hst => ih (applyOp st op) (stInv_applyOp st op hst)

theorem parser_state_invariant (ops : List POp)
    (h : (applyOps ops).pending = none) : (applyOps ops).bodyLines = [] :=
  stInv_foldl ops initState (fun _ => rfl) h

theorem parser_state_invariant_wit :
    (applyOps [POp.feedOp "hello".data, POp.resetOp]).bodyLines = [] :=
  parser_state_invariant [POp.feedOp "hello".data, POp.resetOp] (by decide)

/-! ## Claim C1: a new open marker while a block is pending -/

/-- Claim C1 counterexample: with block TASK_COMPLETE pending and body
["body1"] accumulated, feeding the open-marker line
`<!-- SIGNAL:CHECKPOINT -->` (which contains no close marker) does NOT
leave the pending block unchanged and does NOT append the line to the body:
the pending block is replaced by CHECKPOINT and the body is cleared. -/
theorem feed_open_while_pending_cex :
    signalOpenExec "<!-- SIGNAL:CHECKPOINT -->".data
        = some ("CHECKPOINT".data, [], []) ∧
    signalCloseTest "<!-- SIGNAL:CHECKPOINT -->".data = false ∧
    feed ⟨some ("TASK_COMPLETE".data, []), ["body1".data]⟩
        "<!-- SIGNAL:CHECKPOINT -->".data
      = (none, ⟨some ("CHECKPOINT".data, []), []⟩) ∧
    ¬ ((feed ⟨some ("TASK_COMPLETE".data, []), ["body1".data]⟩
          "<!-- SIGNAL:CHECKPOINT -->".data).2.pending
        = some ("TASK_COMPLETE".data, [])) := by
  refine ⟨by decide, by decide, by decide, by decide⟩

/-- Claim C1 amended: with a block pending, feeding a line that matches the
open-marker pattern but contains no close marker (and no legacy literal)
replaces the pending block: `feed` returns nothing, `pending` becomes the
new line's type and parsed attributes, and the accumulated body lines are
discarded. -/
theorem feed_open_while_pending_replaces (st : ParserState)
    (p : Str × List (Str × Str)) (line ty raw rest : Str)
    (hpend : st.pending = some p)
    (hleg : containsSeq legacyLit line = false)
    (hcl : signalCloseTest line = false)
    (hopen : signalOpenExec line = some (ty, raw, rest)) :
    feed st line = (none, ⟨some (ty, parseAttrs raw), []⟩) := by
  simp [feed, feedOpenOrBody, hleg, hpend, hcl, hopen]

theorem feed_open_while_pending_replaces_wit :
    feed ⟨some ("TASK_COMPLETE".data, []), ["body1".data]⟩
        "<!-- SIGNAL:BLOCKED reason=\"x\" -->".data
      = (none, ⟨some ("BLOCKED".data, parseAttrs " reason=\"x\"".data), []⟩) :=
  feed_open_while_pending_replaces
    ⟨some ("TASK_COMPLETE".data, []), ["body1".data]⟩
    ("TASK_COMPLETE".data, []) "<!-- SIGNAL:BLOCKED reason=\"x\" -->".data
    "BLOCKED".data " reason=\"x\"".data [] rfl (by decide) (by decide) (by decide)

/-! ## Claim C3: self-closing blocks -/

lemma closeTest_append_right (a b : Str) (h : signalCloseTest b = true) :
    signalCloseTest (a ++ b) = true := by
  induction a with
  | nil => simpa using h
  | cons c t ih => simp [signalCloseTest, ih]

lemma closeTest_closeLit_append (post : Str) :
    signalCloseTest (closeLit ++ post) = true := rfl

lemma startsWith_eq_append : ∀ {pat s : Str}, startsWith pat s = true →
    ∃ rest, s = pat ++ rest := by
  intro pat
  induction pat with
  | nil => exact fun {s} _ => ⟨s, rfl⟩
  | cons p ps ih =>
    intro s h
    cases s with
    | nil => simp [startsWith] at h
    | cons c cs =>
      simp only [startsWith, Bool.and_eq_true, beq_iff_eq] at h
      obtain ⟨rfl, h2⟩ := h
      obtain ⟨rest, rfl⟩ := ih h2
      exact ⟨rest, rfl⟩

lemma exists_of_indexOfLit (pat : Str) :
    ∀ (s : Str) (i : Nat), indexOfLit pat s = some i →
      ∃ rest, s = s.take i ++ pat ++ rest := by
  intro s
  induction s with
  | nil =>
    intro i h
    cases hp : startsWith pat [] with
    | false => simp [indexOfLit, hp] at h
    | true =>
      obtain ⟨rest, hrest⟩ := startsWith_eq_append hp
      simp [indexOfLit, hp] at h
      subst h
      exact ⟨rest, by simpa using hrest⟩
  | cons c t ih =>
    intro i h
    cases hp : startsWith pat (c :: t) with
    | true =>
      obtain ⟨rest, hrest⟩ := startsWith_eq_append hp
      simp [indexOfLit, hp] at h
      subst h
      exact ⟨rest, by simpa using hrest⟩
    | false =>
      cases hj : indexOfLit pat t with
      | none => simp [indexOfLit, hp, hj] at h
      | some j =>
        simp [indexOfLit, hp, hj] at h
        subst h
        obtain ⟨rest, hrest⟩ := ih j hj
        exact ⟨rest, by simpa [List.take_succ_cons] using congrArg (c :: ·) hrest⟩

lemma matchAttrIter_suffix {s c r : Str} (h : matchAttrIter s = some (c, r)) :
    r <:+ s := by
  simp only [matchAttrIter] at h
  split_ifs at h with h1 h2
  split at h
  · rename_i r3 heq
    split at h
    · rename_i r5 heq2
      obtain rfl : r5 = r := congrArg Prod.snd (Option.some.inj h)
      have s1 : r5 <:+ r3 :=
        (List.suffix_cons '"' r5).trans (heq2 ▸ List.dropWhile_suffix _)
      have s2 : r3 <:+ s.dropWhile isJsWs :=
        ((List.suffix_cons '"' r3).trans (List.suffix_cons '=' _)).trans
          (heq ▸ List.dropWhile_suffix _)
      exact (s1.trans s2).trans (List.dropWhile_suffix _)
    · exact absurd h (by simp)
  · exact absurd h (by simp)

lemma matchAttrListAux_suffix : ∀ (fuel : Nat) (s : Str),
    (matchAttrListAux fuel s).2 <:+ s := by
  intro fuel
  induction fuel with
  | zero => intro s; exact List.suffix_rfl
  | succ n ih =>
    intro s
    cases hm : matchAttrIter s with
    | none =>
      simp only [matchAttrListAux, hm]
      exact List.suffix_rfl
    | some p =>
      obtain ⟨c, r⟩ := p
      simp only [matchAttrListAux, hm]
      exact (ih r).trans (matchAttrIter_suffix hm)

lemma matchAttrList_suffix (s : Str) : (matchAttrList s).2 <:+ s :=
  matchAttrListAux_suffix s.length s

lemma matchOpenAt_suffix {s ty raw rest : Str}
    (h : matchOpenAt s = some (ty, raw, rest)) : rest <:+ s := by
  simp only [matchOpenAt] at h
  split_ifs at h with h1 h2 h3 h4
  obtain rfl : _ = rest := congrArg (fun p => p.2.2) (Option.some.inj h)
  refine (List.drop_suffix _ _).trans ?_
  refine (List.dropWhile_suffix _).trans ?_
  refine (matchAttrList_suffix _).trans ?_
  exact (List.dropWhile_suffix _).trans ((List.drop_suffix _ _).trans
    ((List.dropWhile_suffix _).trans (List.drop_suffix _ _)))

lemma signalOpenExec_suffix : ∀ {s ty raw rest : Str},
    signalOpenExec s = some (ty, raw, rest) → rest <:+ s := by
  intro s
  induction s with
  | nil => intro ty raw rest h; simp [signalOpenExec] at h
  | cons c t ih =>
    intro ty raw rest h
    cases hm : matchOpenAt (c :: t) with
    | some r₀ =>
      simp only [signalOpenExec, hm] at h
      obtain rfl := Option.some.inj h
      exact matchOpenAt_suffix hm
    | none =>
      simp only [signalOpenExec, hm] at h
      exact (ih h).trans (List.suffix_cons c t)

lemma closeTest_of_open_lit {line ty raw after : Str} {i : Nat}
    (hopen : signalOpenExec line = some (ty, raw, after))
    (hidx : indexOfLit closeLit after = some i) :
    signalCloseTest line = true := by
  obtain ⟨pre, hpre⟩ := signalOpenExec_suffix hopen
  obtain ⟨rest, hrest⟩ := exists_of_indexOfLit closeLit after i hidx
  have h := closeTest_append_right (pre ++ after.take i) (closeLit ++ rest)
    (closeTest_closeLit_append rest)
  rw [← hpre, hrest]
  simpa [List.append_assoc] using h

/-- Claim C3: with no block pending, feeding a line that matches the
open-marker pattern and carries a close marker later on the same line emits
a self-closing Signal whose body is the trimmed substring strictly between
the end of the open marker and the close marker, without mutating the
parser state. -/
theorem feed_self_closing (st : ParserState) (line ty raw after : Str) (i : Nat)
    (hpend : st.pending = none)
    (hleg : containsSeq legacyLit line = false)
    (hopen : signalOpenExec line = some (ty, raw, after))
    (hidx : indexOfLit closeLit after = some i) :
    feed st line = (some ⟨ty, parseAttrs raw, trim (after.take i)⟩, st) := by
  have hcl := closeTest_of_open_lit hopen hidx
  simp [feed, feedOpenOrBody, hleg, hpend, hopen, hcl, hidx]

theorem feed_self_closing_wit :
    feed initState
        "<!-- SIGNAL:VERIFICATION status=\"passed\" --> ok <!-- /SIGNAL -->".data
      = (some ⟨"VERIFICATION".data, parseAttrs " status=\"passed\"".data,
          trim ((" ok <!-- /SIGNAL -->".data).take 4)⟩, initState) :=
  feed_self_closing initState
    "<!-- SIGNAL:VERIFICATION status=\"passed\" --> ok <!-- /SIGNAL -->".data
    "VERIFICATION".data " status=\"passed\"".data " ok <!-- /SIGNAL -->".data 4
    rfl (by decide) (by decide) (by decide)

/-! ## Claim C4: well-formed multi-line blocks -/

lemma feedAll_append (st : ParserState) (xs ys : List Str) :
    feedAll st (xs ++ ys) =
      ((feedAll st xs).1 ++ (feedAll (feedAll st xs).2 ys).1,
       (feedAll (feedAll st xs).2 ys).2) := by
  induction xs generalizing st with
  | nil => simp [feedAll]
  | cons l ls ih => simp [feedAll, ih]

lemma feedAll_body_accum (p : Str × List (Str × Str)) :
    ∀ (bodyLs : List Str) (acc : List Str),
      (∀ l ∈ bodyLs, containsSeq legacyLit l = false ∧ signalCloseTest l = false ∧
        signalOpenExec l = none) →
      feedAll ⟨some p, acc⟩ bodyLs =
        (bodyLs.map (fun _ => none), ⟨some p, acc ++ bodyLs⟩) := by
  intro bodyLs
  induction bodyLs with
  | nil => intro acc _; simp [feedAll]
  | cons l ls ih =>
    intro acc hb
    obtain ⟨hleg, hcl, hopen⟩ := hb l (by simp)
    have hrest : ∀ l' ∈ ls, containsSeq legacyLit l' = false ∧
        signalCloseTest l' = false ∧ signalOpenExec l' = none :=
      fun l' hl' => hb l' (by simp [hl'])
    have hfeed : feed ⟨some p, acc⟩ l = (none, ⟨some p, acc ++ [l]⟩) := by
      simp [feed, feedOpenOrBody, hleg, hcl, hopen]
    simp [feedAll, hfeed, ih (acc ++ [l]) hrest, List.append_assoc]

/-- Claim C4: a well-formed multi-line block (open-marker line, body lines
free of close markers, open markers and the legacy literal, then a
close-marker line) fed to a fresh parser yields nothing on the open-marker
line and on each body line, and exactly one Signal on the close-marker
line, whose body is the body lines joined by newline and trimmed and whose
type and attributes come from the open marker. -/
theorem feed_multiline_block (bodyLs : List Str)
    (openLine closeLine ty raw after : Str)
    (hol : containsSeq legacyLit openLine = false)
    (ho : signalOpenExec openLine = some (ty, raw, after))
    (hoc : signalCloseTest openLine = false)
    (hb : ∀ l ∈ bodyLs, containsSeq legacyLit l = false ∧
      signalCloseTest l = false ∧ signalOpenExec l = none)
    (hcl : containsSeq legacyLit closeLine = false)
    (hcc : signalCloseTest closeLine = true) :
    feedAll initState (openLine :: (bodyLs ++ [closeLine])) =
      (none :: (bodyLs.map (fun _ => none) ++
        [some ⟨ty, parseAttrs raw, trim (joinNl bodyLs)⟩]), initState) := by
  have h1 : feed initState openLine = (none, ⟨some (ty, parseAttrs raw), []⟩) := by
    simp [feed, feedOpenOrBody, initState, hol, ho, hoc]
  have h2 := feedAll_body_accum (ty, parseAttrs raw) bodyLs [] hb
  have h3 : feed ⟨some (ty, parseAttrs raw), bodyLs⟩ closeLine =
      (some ⟨ty, parseAttrs raw, trim (joinNl bodyLs)⟩, initState) := by
    simp [feed, hcl, hcc]
  simp [feedAll, h1, feedAll_append, h2, h3]

theorem feed_multiline_block_wit :
    feedAll initState
        ("<!-- SIGNAL:TASK_COMPLETE task=\"T1\" -->".data ::
          (["Done".data] ++ ["<!-- /SIGNAL -->".data])) =
      (none :: (["Done".data].map (fun _ => none) ++
        [some ⟨"TASK_COMPLETE".data, parseAttrs " task=\"T1\"".data,
          trim (joinNl ["Done".data])⟩]), initState) :=
  feed_multiline_block ["Done".data]
    "<!-- SIGNAL:TASK_COMPLETE task=\"T1\" -->".data "<!-- /SIGNAL -->".data
    "TASK_COMPLETE".data " task=\"T1\"".data []
    (by decide) (by decide) (by decide) (by decide) (by decide) (by decide)

/-! ## Claims C7 and C8: the chunked stream reader -/

/-- Reading one whole text in a single pass: process its completed lines,
then the trailing partial line when nonempty and on stdout. -/
def drainText (onStdout : Bool) (text : Str) (rs : RunState) : RunState :=
  let p := splitState text
  let rs' := p.1.foldl (processLine onStdout) rs
  if !p.2.isEmpty && onStdout then processLine onStdout rs' p.2 else rs'

lemma splitState_no_newline : ∀ {s : Str}, '\n' ∉ s → splitState s = ([], s) := by
  intro s
  induction s with
  | nil => intro _; rfl
  | cons c t ih =>
    intro h
    have hc : ¬ c = '\n' := fun e => h (e ▸ List.mem_cons_self c t)
    have ht : '\n' ∉ t := fun m => h (List.mem_cons_of_mem c m)
    simp [splitState, ih ht, hc]

lemma splitState_buf_no_newline (s : Str) : '\n' ∉ (splitState s).2 := by
  induction s with
  | nil => simp [splitState]
  | cons c t ih =>
    by_cases hc : c = '\n'
    · simpa [splitState, hc] using ih
    · cases hp : (splitState t).1 with
      | nil =>
        have hsnd : (splitState (c :: t)).2 = c :: (splitState t).2 := by
          simp [splitState, hp, hc]
        rw [hsnd]
        intro hmem
        rcases List.mem_cons.mp hmem with e | m
        · exact hc e.symm
        · exact ih m
      | cons hh r =>
        simpa [splitState, hc, hp] using ih

lemma splitState_append (a b : Str) :
    splitState (a ++ b) =
      match (splitState b).1 with
      | [] => ((splitState a).1, (splitState a).2 ++ (splitState b).2)
      | h :: r => ((splitState a).1 ++ ((splitState a).2 ++ h) :: r,
          (splitState b).2) := by
  induction a with
  | nil =>
    cases hb : (splitState b).1 with
    | nil =>
      simp only [List.nil_append, hb, splitState]
      exact Prod.ext hb rfl
    | cons hh r =>
      simp only [List.nil_append, hb, splitState, List.append_nil]
      exact Prod.ext (by simp [hb]) rfl
  | cons c a' ih =>
    cases hb : (splitState b).1 with
    | nil =>
      by_cases hc : c = '\n' <;>
        cases ha : (splitState a').1 <;>
          simp [splitState, List.cons_append, ih, hb, ha, hc]
    | cons hh r =>
      by_cases hc : c = '\n' <;>
        cases ha : (splitState a').1 <;>
          simp [splitState, List.cons_append, ih, hb, ha, hc]

lemma readStreamLoop_eq_drain (io : Bool) :
    ∀ (chunks : List Str) (buf : Str) (rs : RunState), '\n' ∉ buf →
      readStreamLoop io buf chunks rs = drainText io (buf ++ chunks.flatten) rs := by
  intro chunks
  induction chunks with
  | nil =>
    intro buf rs hnl
    simp [readStreamLoop, drainText, splitState_no_newline hnl]
  | cons ch rest ih =>
    intro buf rs hnl
    rw [readStreamLoop, ih _ _ (splitState_buf_no_newline _)]
    have key := splitState_append (buf ++ ch) rest.flatten
    have key2 := splitState_append (splitState (buf ++ ch)).2 rest.flatten
    rw [splitState_no_newline (splitState_buf_no_newline (buf ++ ch))] at key2
    rw [List.append_assoc] at key
    cases hq : (splitState rest.flatten).1 with
    | nil =>
      simp only [hq] at key key2
      simp [drainText, key, key2, List.append_assoc, List.foldl_append]
    | cons hh r =>
      simp only [hq] at key key2
      simp [drainText, key, key2, List.append_assoc, List.foldl_append]

lemma readStream_eq_drain (io : Bool) (chunks : List Str) (rs : RunState) :
    readStream io chunks rs = drainText io chunks.flatten rs := by
  simpa [readStream] using
    readStreamLoop_eq_drain io chunks [] rs (by simp)

/-- Claim C7: the lines processed by the runner — and with them the parser
feeds, the signal list and order, and the aggregated stdout — depend only
on the total stream content, not on how reads are chunked: any two
chunkings of the same stdout text produce identical run states. -/
theorem readStream_chunk_invariance (c1 c2 : List Str) (rs : RunState)
    (h : c1.flatten = c2.flatten) :
    readStream true c1 rs = readStream true c2 rs := by
  rw [readStream_eq_drain, readStream_eq_drain, h]

theorem readStream_chunk_invariance_wit :
    readStream true ["ab\nc".data] initRun
      = readStream true ["a".data, "b\n".data, "c".data] initRun :=
  readStream_chunk_invariance ["ab\nc".data]
    ["a".data, "b\n".data, "c".data] initRun (by decide)

/-! ## Claim C8: stderr handling -/

lemma foldl_processLine_stderr (ls : List Str) :
    ∀ rs : RunState, ls.foldl (processLine false) rs =
      { rs with stderrOut := rs.stderrOut ++ ls.map (fun l => l ++ ['\n']) } := by
  induction ls with
  | nil => intro rs; simp
  | cons l t ih => intro rs; simp [processLine, ih, List.append_assoc]

/-- Claim C8 counterexample: a stderr stream that ends in the partial line
"err" (no trailing newline) forwards nothing at all to the parent's stderr:
the final partial line is dropped, not forwarded. -/
theorem stderr_tail_line_dropped_cex :
    (readStream false ["err".data] initRun).stderrOut = [] ∧
    "err".data ≠ ([] : Str) := by
  refine ⟨by decide, by decide⟩

/-- Claim C8 amended: every newline-terminated stderr line is forwarded, in
order and with a newline appended, to the parent's stderr, and stderr
reading never touches the aggregated stdout lines, the parser, or the
signal list; a final partial stderr line not terminated by a newline is
discarded when the stream ends. -/
theorem stderr_forwarding (chunks : List Str) (rs : RunState) :
    readStream false chunks rs =
      { rs with stderrOut := rs.stderrOut ++
          (splitState chunks.flatten).1.map (fun l => l ++ ['\n']) } := by
  rw [readStream_eq_drain]
  unfold drainText
  simp [foldl_processLine_stderr]

end MargeRalph
